import Mathlib

/-!
Shallow embedding of src/app/model/calendar.py (CalendarAppChallenge).

Conventions of the embedding:
* Calendar dates are natural numbers (day numbers); times of day are minutes
  after midnight (0 .. 1439), so time(23, 59) is 1439 and the slot starting
  at 09:00 is 540.
* Python dicts preserve insertion order, so they are modelled as ordered
  association lists `List (Nat × α)`; assignment updates an existing key in
  place and appends a fresh key at the end, exactly as a dict does.
* A raised exception is modelled by an `Option CalErr` component of each
  operation's result, paired with the state at the moment of the raise
  (mutations performed before the raise persist, as they do on a Python
  object).
* The current date, read by the source from datetime.now().date(), is an
  explicit argument `today`; event ids from generate_unique_id are drawn
  from a counter `nextId` carried by the Calendar.
-/

/-- Modelled from the spec: the module app.services.util is not under src/.
Per spec section 7 its helpers event_not_found_error, reminder_not_found_error,
slot_not_available_error and date_lower_than_today_error raise the
corresponding named failure, which propagates to the caller immediately.
`keyError` additionally models Python's built-in KeyError raised by the
subscript `self.days[date_]` when the key is absent (not a named spec error;
it is unreachable from states built by the public operations). -/
inductive CalErr where
  | eventNotFound
  | reminderNotFound
  | slotNotAvailable
  | dateInPast
  | keyError
  deriving DecidableEq, Repr

/-- Lookup in an ordered association list (Python `dict.get(k)` / `k in d`). -/
def dictLookup {α : Type} : List (Nat × α) → Nat → Option α
  | [], _ => none
  | (k, v) :: rest, key => if k = key then some v else dictLookup rest key

/-- Python dict assignment `d[k] = v`: update an existing key in place,
append a fresh key at the end. -/
def dictSet {α : Type} : List (Nat × α) → Nat → α → List (Nat × α)
  | [], key, v => [(key, v)]
  | (k, w) :: rest, key, v =>
      if k = key then (key, v) :: rest else (k, w) :: dictSet rest key v

/-- Python `d.pop(k, None)`: drop the entry for the key, if present. -/
def dictRemove {α : Type} : List (Nat × α) → Nat → List (Nat × α)
  | [], _ => []
  | (k, v) :: rest, key => if k = key then rest else (k, v) :: dictRemove rest key

/-- Class Reminder of calendar.py: a dataclass whose fields EMAIL and SYSTEM
are the class-level string constants and whose `type` defaults to EMAIL. -/
structure Reminder where
  date_time : Nat
  EMAIL : String := "email"
  SYSTEM : String := "system"
  type : String := "email"
  deriving DecidableEq, Repr

/-- Class Event of calendar.py. The id (default_factory generate_unique_id)
and the fresh reminders list are supplied by the constructing caller. -/
structure Event where
  title : String
  description : String
  date_ : Nat
  start_at : Nat
  end_at : Nat
  id : Nat
  reminders : List Reminder
  deriving DecidableEq, Repr

/-- Event.add_reminder: appends Reminder(date_time=date_time, type=type_). -/
def Event.add_reminder (ev : Event) (date_time : Nat) (type_ : String := "email") : Event :=
  { ev with reminders := ev.reminders ++ [{ date_time := date_time, type := type_ }] }

/-- Event.delete_reminder: pops the reminder at the index when
`0 <= reminder_index < len(self.reminders)`, otherwise raises
ReminderNotFound. The index is an Int, as in Python. -/
def Event.delete_reminder (ev : Event) (reminder_index : Int) : Event × Option CalErr :=
  if 0 ≤ reminder_index ∧ reminder_index < (ev.reminders.length : Int) then
    ({ ev with reminders := ev.reminders.eraseIdx reminder_index.toNat }, none)
  else
    (ev, some CalErr.reminderNotFound)

/-- Class Day of calendar.py: a date and the slot dictionary
time-of-day to optional event id. -/
structure Day where
  date_ : Nat
  slots : List (Nat × Option Nat)
  deriving DecidableEq, Repr

/-- The while-loop of Day._init_slots, run with fuel: starting from t the
loop tests `t < time(23, 59)` (1439 minutes), stores `slots[t] = None` and
advances to `(datetime.combine(today, t) + 15 min).time()`, which is
`(t + 15) % 1440`. Returns the final dictionary when the loop exits, or
`none` when the fuel runs out before an exit. -/
def initSlotsFuel : Nat → Nat → List (Nat × Option Nat) → Option (List (Nat × Option Nat))
  | 0, _, _ => none
  | fuel + 1, t, acc =>
      if t < 1439 then initSlotsFuel fuel ((t + 15) % 1440) (dictSet acc t none)
      else some acc

/-- The same loop run for a bounded number of iterations, returning the loop
state (current time, slot dictionary) reached. -/
def initSlotsSteps : Nat → Nat → List (Nat × Option Nat) → Nat × List (Nat × Option Nat)
  | 0, t, acc => (t, acc)
  | fuel + 1, t, acc =>
      if t < 1439 then initSlotsSteps fuel ((t + 15) % 1440) (dictSet acc t none)
      else (t, acc)

/-- The 96-slot grid 00:00, 00:15, ..., 23:45, all free. -/
def gridSlots : List (Nat × Option Nat) :=
  (List.range 96).map fun i => (15 * i, none)

/-- Modelled from the spec: `Day.__init__` calls `_init_slots`, whose loop
never returns (see the C1 theorem below); its slot dictionary nevertheless
converges after 96 iterations to `gridSlots`, the grid the spec fixes
(section 4.3: slots 00:00 to 23:45 step 15 minutes, all free). The remaining
operations are analysed on a Day carrying that converged grid. -/
def Day.new (date_ : Nat) : Day :=
  { date_ := date_, slots := gridSlots }

/-- The loop of Day.add_event: iterate over the slot keys in dictionary
order; for a key inside [start_at, end_at), raise SlotNotAvailable if the
slot holds an event id (leaving earlier assignments in place), otherwise
assign event_id to it. -/
def Day.addEventGo (event_id start_at end_at : Nat) :
    List Nat → List (Nat × Option Nat) → List (Nat × Option Nat) × Option CalErr
  | [], slots => (slots, none)
  | k :: ks, slots =>
      if start_at ≤ k ∧ k < end_at then
        match dictLookup slots k with
        | some (some _) => (slots, some CalErr.slotNotAvailable)
        | _ => Day.addEventGo event_id start_at end_at ks (dictSet slots k (some event_id))
      else
        Day.addEventGo event_id start_at end_at ks slots

/-- Day.add_event of calendar.py. -/
def Day.add_event (day : Day) (event_id start_at end_at : Nat) : Day × Option CalErr :=
  match Day.addEventGo event_id start_at end_at (day.slots.map Prod.fst) day.slots with
  | (slots1, err) => ({ day with slots := slots1 }, err)

/-- Day.delete_event of calendar.py: clear every slot holding the id; if no
slot held it, raise EventNotFound (after the scan). -/
def Day.delete_event (day : Day) (event_id : Nat) : Day × Option CalErr :=
  let slots1 := day.slots.map fun p => if p.2 = some event_id then (p.1, none) else p
  let deleted := day.slots.any fun p => p.2 = some event_id
  ({ day with slots := slots1 }, if deleted then none else some CalErr.eventNotFound)

/-- Day.update_event of calendar.py (the class method at lines 83-85):
delete_event followed by add_event; an exception from the delete aborts. -/
def Day.update_event (day : Day) (event_id start_at end_at : Nat) : Day × Option CalErr :=
  match day.delete_event event_id with
  | (day1, some er) => (day1, some er)
  | (day1, none) => day1.add_event event_id start_at end_at

/-- Class Calendar of calendar.py: the day index, the event index, and the
id counter standing for generate_unique_id (spec section 6: a collision-free
generator supplied externally). -/
structure Calendar where
  days : List (Nat × Day)
  events : List (Nat × Event)
  nextId : Nat
  deriving DecidableEq, Repr

/-- The day index after the lazy-creation step of Calendar.add_event:
`if date_ not in self.days: self.days[date_] = Day(date_)`. -/
def Calendar.daysWithDate (cal : Calendar) (date_ : Nat) : List (Nat × Day) :=
  match dictLookup cal.days date_ with
  | some _ => cal.days
  | none => dictSet cal.days date_ (Day.new date_)

/-- The Day object that `self.days[date_]` denotes after the lazy creation. -/
def Calendar.dayFor (cal : Calendar) (date_ : Nat) : Day :=
  (dictLookup (cal.daysWithDate date_) date_).getD (Day.new date_)

/-- Calendar.add_event of calendar.py: reject a date before `today`, create
the Day lazily, build the Event (consuming a fresh id), book its range in
the Day, and register it in the event index only if the booking raised
nothing. On a booking failure the freshly created or partially mutated Day
stays in the day index, exactly as the in-place mutation leaves it. -/
def Calendar.add_event (cal : Calendar) (today : Nat) (title description : String)
    (date_ start_at end_at : Nat) : Calendar × Option CalErr × Option Nat :=
  if date_ < today then (cal, some CalErr.dateInPast, none)
  else
    match (cal.dayFor date_).add_event cal.nextId start_at end_at with
    | (day1, some er) =>
        ({ days := dictSet (cal.daysWithDate date_) date_ day1, events := cal.events,
           nextId := cal.nextId + 1 }, some er, none)
    | (day1, none) =>
        ({ days := dictSet (cal.daysWithDate date_) date_ day1,
           events := dictSet cal.events cal.nextId
             ({ title := title, description := description, date_ := date_,
                start_at := start_at, end_at := end_at, id := cal.nextId,
                reminders := [] }),
           nextId := cal.nextId + 1 }, none, some cal.nextId)

/-- Calendar.add_reminder of calendar.py. -/
def Calendar.add_reminder (cal : Calendar) (event_id : Nat) (date_time : Nat)
    (type_ : String := "email") : Calendar × Option CalErr :=
  match dictLookup cal.events event_id with
  | none => (cal, some CalErr.eventNotFound)
  | some ev =>
      ({ cal with events := dictSet cal.events event_id (ev.add_reminder date_time type_) },
       none)

/-- Calendar.find_available_slots of calendar.py: a read-only query returning
the keys of the free slots of the date's Day, in dictionary order; the empty
list when the date has no Day. -/
def Calendar.find_available_slots (cal : Calendar) (date_ : Nat) : List Nat :=
  match dictLookup cal.days date_ with
  | some day => (day.slots.filter fun p => p.2 = none).map Prod.fst
  | none => []

/-- Calendar.delete_event of calendar.py: pop the id from the event index
(raising EventNotFound if absent); if a Day exists for the event's date,
clear its slots via Day.delete_event, whose exception propagates with the
event already removed from the index. -/
def Calendar.delete_event (cal : Calendar) (event_id : Nat) : Calendar × Option CalErr :=
  match dictLookup cal.events event_id with
  | none => (cal, some CalErr.eventNotFound)
  | some ev =>
      match dictLookup cal.days ev.date_ with
      | none => ({ cal with events := dictRemove cal.events event_id }, none)
      | some day =>
          match day.delete_event event_id with
          | (day1, derr) =>
              ({ cal with
                  events := dictRemove cal.events event_id,
                  days := dictSet cal.days ev.date_ day1 }, derr)

/-- Calendar.update_event of calendar.py: EventNotFound if the id is absent;
on a date change, delete_event then add_event (in that order, so the delete
persists if the re-add fails); on an unchanged date, overwrite title and
description in place and re-book via Day.update_event. -/
def Calendar.update_event (cal : Calendar) (today : Nat) (event_id : Nat)
    (title description : String) (date_ start_at end_at : Nat) : Calendar × Option CalErr :=
  match dictLookup cal.events event_id with
  | none => (cal, some CalErr.eventNotFound)
  | some ev =>
      if ev.date_ ≠ date_ then
        match cal.delete_event event_id with
        | (cal1, some er) => (cal1, some er)
        | (cal1, none) =>
            match cal1.add_event today title description date_ start_at end_at with
            | (cal2, err2, _) => (cal2, err2)
      else
        match dictLookup cal.days date_ with
        | none =>
            ({ cal with
                events := dictSet cal.events event_id
                  ({ ev with title := title, description := description }) },
             some CalErr.keyError)
        | some day =>
            match day.update_event event_id start_at end_at with
            | (day1, derr) =>
                ({ cal with
                    events := dictSet cal.events event_id
                      ({ ev with title := title, description := description }),
                    days := dictSet cal.days date_ day1 }, derr)

/-- Calendar.find_events of calendar.py: a dict comprehension whose keys are
the elements of `range((end_at - start_at).days)` - integer offsets, not
dates - each mapped to the list of all stored events whose date lies in the
inclusive range. A negative difference yields an empty range, as does Nat
subtraction here. -/
def Calendar.find_events (cal : Calendar) (start_at end_at : Nat) : List (Nat × List Event) :=
  (List.range (end_at - start_at)).map fun d =>
    (d, (cal.events.map Prod.snd).filter fun e => start_at ≤ e.date_ ∧ e.date_ ≤ end_at)

/-- Calendar.delete_reminder of calendar.py. -/
def Calendar.delete_reminder (cal : Calendar) (event_id : Nat) (reminder_index : Int) :
    Calendar × Option CalErr :=
  match dictLookup cal.events event_id with
  | none => (cal, some CalErr.eventNotFound)
  | some ev =>
      match ev.delete_reminder reminder_index with
      | (ev1, err) => ({ cal with events := dictSet cal.events event_id ev1 }, err)

/-- Calendar.list_reminders of calendar.py. -/
def Calendar.list_reminders (cal : Calendar) (event_id : Nat) :
    List Reminder × Option CalErr :=
  match dictLookup cal.events event_id with
  | none => ([], some CalErr.eventNotFound)
  | some ev => (ev.reminders, none)

/-- The empty calendar: Calendar.__init__. -/
def calEmpty : Calendar := { days := [], events := [], nextId := 0 }

/-- A calendar holding one event (id 0) on date 5 booked 09:00 to 10:00,
built by the public operations with today = 5. -/
def calNine : Calendar := (calEmpty.add_event 5 "A" "B" 5 540 600).1

/-- The Day stored for date 5 in calNine. -/
def dayNine : Day := (dictLookup calNine.days 5).getD (Day.new 0)

/-- A calendar holding one event (id 0) on the future date 10 booked 09:00
to 10:00, built with today = 5. -/
def calTen : Calendar := (calEmpty.add_event 5 "A" "B" 10 540 600).1

/-- A calendar holding one event (id 0) on date 5 booked 09:00 to 09:30. -/
def calHalf : Calendar := (calEmpty.add_event 5 "A" "B" 5 540 570).1

/-- A calendar holding one event (id 0) on date 5 whose range 09:05 to 09:10
contains no slot boundary, so it occupies no slot at all. -/
def calNoSlot : Calendar := (calEmpty.add_event 5 "A" "B" 5 545 550).1

/-- The Day stored for date 5 in calHalf. -/
def dayHalf : Day := (dictLookup calHalf.days 5).getD (Day.new 0)

/-- The calendar state left behind by the failing second booking
add_event("C", "D", 5, 08:45, 09:15) on calHalf. -/
def calHalfFail : Calendar := (calHalf.add_event 5 "C" "D" 5 525 555).1

/-- The Day stored for date 5 in calHalfFail. -/
def dayHalfFail : Day := (dictLookup calHalfFail.days 5).getD (Day.new 0)

/-- The Day stored for date 10 in calTen. -/
def dayTen : Day := (dictLookup calTen.days 10).getD (Day.new 0)

/-- The Day stored for date 5 in calNoSlot. -/
def dayNoSlot : Day := (dictLookup calNoSlot.days 5).getD (Day.new 0)

/-! ## General lemmas about the dictionary model -/

theorem dictLookup_set_self {α : Type} : ∀ (l : List (Nat × α)) (k : Nat) (v : α),
    dictLookup (dictSet l k v) k = some v
  | [], k, v => by simp [dictSet, dictLookup]
  | (a, b) :: rest, k, v => by
      by_cases h : a = k
      · simp [dictSet, h, dictLookup]
      · simp [dictSet, h, dictLookup, dictLookup_set_self rest k v]

theorem dictLookup_set_ne {α : Type} : ∀ (l : List (Nat × α)) (k k' : Nat) (v : α),
    k' ≠ k → dictLookup (dictSet l k v) k' = dictLookup l k'
  | [], k, k', v, h => by simp [dictSet, dictLookup, Ne.symm h]
  | (a, b) :: rest, k, k', v, h => by
      by_cases hak : a = k
      · subst hak
        simp [dictSet, dictLookup, Ne.symm h]
      · simp only [dictSet, if_neg hak, dictLookup]
        by_cases hak' : a = k'
        · simp [hak']
        · simp [hak', dictLookup_set_ne rest k k' v h]

theorem mem_of_dictLookup {α : Type} : ∀ {l : List (Nat × α)} {k : Nat} {v : α},
    dictLookup l k = some v → (k, v) ∈ l
  | [], k, v, h => by simp [dictLookup] at h
  | (a, b) :: rest, k, v, h => by
      by_cases hak : a = k
      · subst hak
        simp [dictLookup] at h
        simp [h]
      · simp only [dictLookup, if_neg hak] at h
        exact List.mem_cons_of_mem _ (mem_of_dictLookup h)

theorem mem_keys_of_dictLookup {α : Type} {l : List (Nat × α)} {k : Nat} {v : α}
    (h : dictLookup l k = some v) : k ∈ l.map Prod.fst :=
  List.mem_map.2 ⟨(k, v), mem_of_dictLookup h, rfl⟩

theorem dictLookup_of_mem_keys {α : Type} : ∀ {l : List (Nat × α)} {k : Nat},
    k ∈ l.map Prod.fst → ∃ v, dictLookup l k = some v
  | [], k, h => by simp at h
  | (a, b) :: rest, k, h => by
      by_cases hak : a = k
      · exact ⟨b, by simp [dictLookup, hak]⟩
      · have hk : k ∈ rest.map Prod.fst := by
          rcases List.mem_map.1 h with ⟨p, hp, hpk⟩
          rcases List.mem_cons.1 hp with hp1 | hp2
          · exact absurd (by rw [hp1] at hpk; exact hpk) hak
          · exact List.mem_map.2 ⟨p, hp2, hpk⟩
        rcases dictLookup_of_mem_keys hk with ⟨v, hv⟩
        exact ⟨v, by simp [dictLookup, hak, hv]⟩

theorem dictLookup_eq_none_of_not_mem {α : Type} : ∀ {l : List (Nat × α)} {k : Nat},
    k ∉ l.map Prod.fst → dictLookup l k = none
  | [], k, _ => rfl
  | (a, b) :: rest, k, h => by
      have hak : a ≠ k := by
        intro hh
        exact h (by simp [hh])
      have hrest : k ∉ rest.map Prod.fst := by
        intro hh
        exact h (by simp [hh])
      simp [dictLookup, hak, dictLookup_eq_none_of_not_mem hrest]

theorem dictLookup_remove_self {α : Type} : ∀ (l : List (Nat × α)) (k : Nat),
    (l.map Prod.fst).Nodup → dictLookup (dictRemove l k) k = none
  | [], k, _ => rfl
  | (a, b) :: rest, k, h => by
      rw [List.map_cons, List.nodup_cons] at h
      by_cases hak : a = k
      · subst hak
        simp only [dictRemove, if_pos rfl]
        exact dictLookup_eq_none_of_not_mem h.1
      · simp [dictRemove, hak, dictLookup, dictLookup_remove_self rest k h.2]

/-! ## Lemmas about the Day operations -/

theorem addEventGo_err (event_id start_at end_at : Nat) : ∀ (keys : List Nat)
    (slots : List (Nat × Option Nat)),
    (Day.addEventGo event_id start_at end_at keys slots).2 = none ∨
    (Day.addEventGo event_id start_at end_at keys slots).2 = some CalErr.slotNotAvailable
  | [], _ => Or.inl rfl
  | k :: ks, slots => by
      by_cases h : start_at ≤ k ∧ k < end_at
      · rcases hl : dictLookup slots k with _ | (_ | y)
        · simpa [Day.addEventGo, h, hl] using
            addEventGo_err event_id start_at end_at ks (dictSet slots k (some event_id))
        · simpa [Day.addEventGo, h, hl] using
            addEventGo_err event_id start_at end_at ks (dictSet slots k (some event_id))
        · simp [Day.addEventGo, h, hl]
      · simpa [Day.addEventGo, h] using addEventGo_err event_id start_at end_at ks slots

theorem day_add_event_err (day : Day) (event_id start_at end_at : Nat) :
    (day.add_event event_id start_at end_at).2 = none ∨
    (day.add_event event_id start_at end_at).2 = some CalErr.slotNotAvailable := by
  rcases hgo : Day.addEventGo event_id start_at end_at (day.slots.map Prod.fst) day.slots
    with ⟨s1, e1⟩
  rcases addEventGo_err event_id start_at end_at (day.slots.map Prod.fst) day.slots with h | h <;>
    rw [hgo] at h <;> simp [Day.add_event, hgo, h]

theorem addEventGo_empty_range (event_id start_at end_at : Nat) (h : end_at ≤ start_at) :
    ∀ (keys : List Nat) (slots : List (Nat × Option Nat)),
    Day.addEventGo event_id start_at end_at keys slots = (slots, none)
  | [], _ => rfl
  | k :: ks, slots => by
      have hk : ¬ (start_at ≤ k ∧ k < end_at) := by omega
      simp [Day.addEventGo, hk, addEventGo_empty_range event_id start_at end_at h ks slots]

theorem addEventGo_conflict (event_id start_at end_at : Nat) : ∀ (keys : List Nat)
    (slots : List (Nat × Option Nat)) (k x : Nat), k ∈ keys → start_at ≤ k → k < end_at →
    dictLookup slots k = some (some x) →
    (Day.addEventGo event_id start_at end_at keys slots).2 = some CalErr.slotNotAvailable
  | [], _, k, x, hmem, _, _, _ => by simp at hmem
  | k0 :: ks, slots, k, x, hmem, hs, he, hl => by
      by_cases h0 : start_at ≤ k0 ∧ k0 < end_at
      · rcases hl0 : dictLookup slots k0 with _ | (_ | y)
        · have hk : k ≠ k0 := by
            intro hh
            rw [hh, hl0] at hl
            exact Option.noConfusion hl
          have hmem' : k ∈ ks := (List.mem_cons.1 hmem).resolve_left hk
          have hl' : dictLookup (dictSet slots k0 (some event_id)) k = some (some x) := by
            rw [dictLookup_set_ne slots k0 k (some event_id) hk, hl]
          simpa [Day.addEventGo, h0, hl0] using
            addEventGo_conflict event_id start_at end_at ks (dictSet slots k0 (some event_id))
              k x hmem' hs he hl'
        · have hk : k ≠ k0 := by
            intro hh
            rw [hh, hl0] at hl
            simp at hl
          have hmem' : k ∈ ks := (List.mem_cons.1 hmem).resolve_left hk
          have hl' : dictLookup (dictSet slots k0 (some event_id)) k = some (some x) := by
            rw [dictLookup_set_ne slots k0 k (some event_id) hk, hl]
          simpa [Day.addEventGo, h0, hl0] using
            addEventGo_conflict event_id start_at end_at ks (dictSet slots k0 (some event_id))
              k x hmem' hs he hl'
        · simp [Day.addEventGo, h0, hl0]
      · have hk : k ≠ k0 := by
          intro hh
          rw [hh] at hs he
          exact h0 ⟨hs, he⟩
        have hmem' : k ∈ ks := (List.mem_cons.1 hmem).resolve_left hk
        simpa [Day.addEventGo, h0] using
          addEventGo_conflict event_id start_at end_at ks slots k x hmem' hs he hl

theorem addEventGo_free (event_id start_at end_at : Nat) : ∀ (keys : List Nat)
    (slots : List (Nat × Option Nat)), keys.Nodup →
    (∀ k ∈ keys, start_at ≤ k → k < end_at → dictLookup slots k = some none) →
    (Day.addEventGo event_id start_at end_at keys slots).2 = none ∧
    ∀ k', dictLookup (Day.addEventGo event_id start_at end_at keys slots).1 k' =
      if k' ∈ keys ∧ start_at ≤ k' ∧ k' < end_at then some (some event_id)
      else dictLookup slots k'
  | [], slots, _, _ => by simp [Day.addEventGo]
  | k0 :: ks, slots, hnd, hfree => by
      have hnd' := List.nodup_cons.1 hnd
      by_cases h0 : start_at ≤ k0 ∧ k0 < end_at
      · have hl0 : dictLookup slots k0 = some none :=
          hfree k0 (List.mem_cons_self k0 ks) h0.1 h0.2
        have hfree' : ∀ k ∈ ks, start_at ≤ k → k < end_at →
            dictLookup (dictSet slots k0 (some event_id)) k = some none := by
          intro k hk hs he
          have hkne : k ≠ k0 := by
            intro hh
            rw [hh] at hk
            exact hnd'.1 hk
          rw [dictLookup_set_ne slots k0 k (some event_id) hkne]
          exact hfree k (List.mem_cons_of_mem _ hk) hs he
        rcases addEventGo_free event_id start_at end_at ks (dictSet slots k0 (some event_id))
          hnd'.2 hfree' with ⟨herr, hval⟩
        have hstep : Day.addEventGo event_id start_at end_at (k0 :: ks) slots
            = Day.addEventGo event_id start_at end_at ks (dictSet slots k0 (some event_id)) := by
          simp [Day.addEventGo, h0, hl0]
        rw [hstep]
        refine ⟨herr, ?_⟩
        intro k'
        rw [hval k']
        by_cases hk0 : k' = k0
        · subst hk0
          have hnotin : k' ∉ ks := hnd'.1
          rw [if_neg (by simp [hnotin]), dictLookup_set_self slots k' (some event_id),
            if_pos ⟨List.mem_cons_self k' ks, h0.1, h0.2⟩]
        · rw [dictLookup_set_ne slots k0 k' (some event_id) hk0]
          by_cases hc : k' ∈ ks ∧ start_at ≤ k' ∧ k' < end_at
          · rw [if_pos hc, if_pos ⟨List.mem_cons_of_mem _ hc.1, hc.2.1, hc.2.2⟩]
          · rw [if_neg hc,
              if_neg (fun hh => hc ⟨(List.mem_cons.1 hh.1).resolve_left hk0, hh.2.1, hh.2.2⟩)]
      · have hfree' : ∀ k ∈ ks, start_at ≤ k → k < end_at →
            dictLookup slots k = some none := fun k hk hs he =>
          hfree k (List.mem_cons_of_mem _ hk) hs he
        rcases addEventGo_free event_id start_at end_at ks slots hnd'.2 hfree'
          with ⟨herr, hval⟩
        have hstep : Day.addEventGo event_id start_at end_at (k0 :: ks) slots
            = Day.addEventGo event_id start_at end_at ks slots := by
          simp [Day.addEventGo, h0]
        rw [hstep]
        refine ⟨herr, ?_⟩
        intro k'
        rw [hval k']
        by_cases hc : k' ∈ ks ∧ start_at ≤ k' ∧ k' < end_at
        · rw [if_pos hc, if_pos ⟨List.mem_cons_of_mem _ hc.1, hc.2.1, hc.2.2⟩]
        · have hneg : ¬ (k' ∈ k0 :: ks ∧ start_at ≤ k' ∧ k' < end_at) := by
            rintro ⟨hm, ha, hb⟩
            rcases List.mem_cons.1 hm with hm0 | hm1
            · exact h0 ⟨hm0 ▸ ha, hm0 ▸ hb⟩
            · exact hc ⟨hm1, ha, hb⟩
          rw [if_neg hc, if_neg hneg]

/-! ## C1: Day construction -/

theorem initSlotsFuel_eq_none : ∀ (fuel t : Nat) (acc : List (Nat × Option Nat)),
    t % 15 = 0 → t < 1440 → initSlotsFuel fuel t acc = none
  | 0, _, _, _, _ => rfl
  | fuel + 1, t, acc, h15, hlt => by
      have hguard : t < 1439 := by omega
      have h15' : (t + 15) % 1440 % 15 = 0 := by omega
      have hlt' : (t + 15) % 1440 < 1440 := Nat.mod_lt _ (by norm_num)
      simp only [initSlotsFuel, if_pos hguard]
      exact initSlotsFuel_eq_none fuel ((t + 15) % 1440) (dictSet acc t none) h15' hlt'

/-- C1: the claim states that constructing a Day for any date terminates and
yields the 96 slot start times 00:00, 00:15, ..., 23:45, each free. The
slot dictionary the loop accumulates is exactly that grid (second conjunct:
after 96 iterations the state is the full free grid), but the construction
never terminates: every time the loop reaches is a multiple of 15 below
1440 minutes, so the guard `t < time(23, 59)` (1439 minutes) never fails -
after slot 23:45 the successor time wraps to 00:00 and the scan repeats
forever. The first conjunct shows the loop exhausts any amount of fuel. -/
theorem c1_init_slots_diverges :
    (∀ fuel : Nat, initSlotsFuel fuel 0 [] = none) ∧
    (initSlotsSteps 96 0 []).2 = gridSlots := by
  constructor
  · intro fuel
    exact initSlotsFuel_eq_none fuel 0 [] rfl (by norm_num)
  · decide

/-! ## C2: find_events -/

/-- C2: the claim states that findEvents(startDate, endDate) maps exactly the
dates of the inclusive range [startDate, endDate] to the matching events. On
a calendar holding one event on date 5 (first conjunct), find_events 5 5 is
the empty mapping - range((5 - 5).days) is empty, so even the key 5 is
missing - and the keys of find_events 5 7 are the integer offsets 0 and 1
produced by range((7 - 5).days), not the dates 5, 6, 7. -/
theorem c2_find_events_int_keys :
    dictLookup calNine.events 0
        = some ({ title := "A", description := "B", date_ := 5, start_at := 540,
                  end_at := 600, id := 0, reminders := [] }) ∧
    calNine.find_events 5 5 = [] ∧
    (calNine.find_events 5 7).map Prod.fst = [0, 1] := by
  decide

/-! ## C10: reminder round trip -/

theorem eraseIdx_append_len {α : Type} : ∀ (l : List α) (r : α),
    (l ++ [r]).eraseIdx l.length = l
  | [], r => rfl
  | a :: rest, r => by
      show a :: (rest ++ [r]).eraseIdx rest.length = a :: rest
      rw [eraseIdx_append_len rest r]

/-- C10: appending a reminder with add_reminder and then deleting it with
delete_reminder at index count - 1 (the index of the just-appended reminder)
returns the event, reminder list included, to exactly its prior value, and
raises nothing. -/
theorem c10_add_then_delete_reminder (ev : Event) (dt : Nat) (ty : String) :
    (ev.add_reminder dt ty).delete_reminder
        (((ev.add_reminder dt ty).reminders.length : Int) - 1) = (ev, none) := by
  cases ev with
  | mk t d da s e i rem =>
      simp only [Event.add_reminder, Event.delete_reminder, List.length_append,
        List.length_cons, List.length_nil]
      rw [if_pos ⟨by push_cast; omega, by push_cast; omega⟩]
      have hidx : ((rem.length + (0 + 1) : Nat) : Int) - 1 = ((rem.length : Nat) : Int) := by
        push_cast
        ring
      rw [hidx, Int.toNat_natCast, eraseIdx_append_len]

/-! ## Lemmas about the lazy Day creation in Calendar.add_event -/

theorem daysWithDate_of_lookup (cal : Calendar) (date_ : Nat) (day : Day)
    (h : dictLookup cal.days date_ = some day) : cal.daysWithDate date_ = cal.days := by
  simp [Calendar.daysWithDate, h]

theorem dayFor_of_lookup (cal : Calendar) (date_ : Nat) (day : Day)
    (h : dictLookup cal.days date_ = some day) : cal.dayFor date_ = day := by
  simp [Calendar.dayFor, Calendar.daysWithDate, h]

/-! ## C6: the start-before-end invariant -/

/-- C6 (amended): the operations perform no validation of start against end.
Whenever the date passes the past-date check, an add_event whose end time is
at or before its start time succeeds - the requested range covers no slot,
so the booking loop does nothing - returns the fresh id, and registers an
event with start_at at or after end_at in the event index. -/
theorem c6_accepts_reversed_times (cal : Calendar) (today : Nat)
    (title description : String) (date_ start_at end_at : Nat)
    (htoday : today ≤ date_) (hrev : end_at ≤ start_at) :
    (cal.add_event today title description date_ start_at end_at).2.1 = none ∧
    (cal.add_event today title description date_ start_at end_at).2.2 = some cal.nextId ∧
    dictLookup (cal.add_event today title description date_ start_at end_at).1.events
        cal.nextId
      = some ({ title := title, description := description, date_ := date_,
                start_at := start_at, end_at := end_at, id := cal.nextId,
                reminders := [] }) := by
  have hd : ¬ date_ < today := by omega
  have hadd : (cal.dayFor date_).add_event cal.nextId start_at end_at
      = (cal.dayFor date_, none) := by
    unfold Day.add_event
    rw [addEventGo_empty_range cal.nextId start_at end_at hrev]
  unfold Calendar.add_event
  rw [if_neg hd, hadd]
  exact ⟨rfl, rfl, dictLookup_set_self _ _ _⟩

/-- C6 counterexample: the claim states every indexed event satisfies
start time < end time in every reachable state. Starting from the empty
calendar with today = 5, add_event("A", "B", 5, 10:00, 09:00) raises
nothing, returns id 0, and leaves an event with start_at = 600 and
end_at = 540 in the event index, and 600 < 540 is false. -/
theorem c6_invariant_counterexample :
    (calEmpty.add_event 5 "A" "B" 5 600 540).2.1 = none ∧
    (calEmpty.add_event 5 "A" "B" 5 600 540).2.2 = some 0 ∧
    dictLookup (calEmpty.add_event 5 "A" "B" 5 600 540).1.events 0
      = some ({ title := "A", description := "B", date_ := 5, start_at := 600,
                end_at := 540, id := 0, reminders := [] }) ∧
    ¬ (600 : Nat) < 540 := by
  decide

/-- C6 witness: the amended theorem applied to the empty calendar with
today = 7, date 9 and the reversed range 10:30 to 10:15. -/
theorem c6_reversed_witness :
    (calEmpty.add_event 7 "T" "D" 9 630 615).2.1 = none ∧
    (calEmpty.add_event 7 "T" "D" 9 630 615).2.2 = some 0 ∧
    dictLookup (calEmpty.add_event 7 "T" "D" 9 630 615).1.events 0
      = some ({ title := "T", description := "D", date_ := 9, start_at := 630,
                end_at := 615, id := 0, reminders := [] }) :=
  c6_accepts_reversed_times calEmpty 7 "T" "D" 9 630 615 (by norm_num) (by norm_num)

/-! ## C7: the DateInPast condition -/

/-- C7: add_event raises DateInPast exactly when the requested date is
strictly before the current date. A request on the current date never yields
DateInPast whatever the times: past the date check the only possible error
is SlotNotAvailable from the slot scan. -/
theorem c7_date_in_past_iff (cal : Calendar) (today : Nat) (title description : String)
    (date_ start_at end_at : Nat) :
    (cal.add_event today title description date_ start_at end_at).2.1
        = some CalErr.dateInPast ↔ date_ < today := by
  by_cases hd : date_ < today
  · simp [Calendar.add_event, hd]
  · simp only [Calendar.add_event, if_neg hd]
    constructor
    · intro h
      rcases hadd : (cal.dayFor date_).add_event cal.nextId start_at end_at with ⟨day1, err⟩
      rw [hadd] at h
      rcases day_add_event_err (cal.dayFor date_) cal.nextId start_at end_at with he | he <;>
        rw [hadd] at he
      · have he' : err = none := he
        subst he'
        simp at h
      · have he' : err = some CalErr.slotNotAvailable := he
        subst he'
        have h' : some CalErr.slotNotAvailable = some CalErr.dateInPast := h
        exact CalErr.noConfusion (Option.some.inj h')
    · intro h
      exact absurd h hd

/-- C7 witness: the iff applied to the empty calendar with today = 4 and the
past date 3: add_event reports DateInPast. -/
theorem c7_past_witness :
    (calEmpty.add_event 4 "T" "D" 3 0 15).2.1 = some CalErr.dateInPast :=
  (c7_date_in_past_iff calEmpty 4 "T" "D" 3 0 15).mpr (by norm_num)

/-! ## C8: find_available_slots -/

/-- C8: find_available_slots is a pure query (the embedding returns only the
list, mirroring that the source path performs no mutation and creates no
Day): on a date with no Day it returns the empty sequence, and on a date
with a Day it returns exactly the keys of the free slots - membership
characterises the free slots, the result is a sublist of the day's slot keys
(so it follows the dictionary order), and it is strictly increasing whenever
the day's slot keys are. -/
theorem c8_find_available_slots_spec (cal : Calendar) (date_ : Nat) :
    (dictLookup cal.days date_ = none → cal.find_available_slots date_ = []) ∧
    ∀ day, dictLookup cal.days date_ = some day →
      ((∀ t, t ∈ cal.find_available_slots date_ ↔ (t, (none : Option Nat)) ∈ day.slots) ∧
       (cal.find_available_slots date_).Sublist (day.slots.map Prod.fst) ∧
       ((day.slots.map Prod.fst).Pairwise (fun a b => a < b) →
         (cal.find_available_slots date_).Pairwise (fun a b => a < b))) := by
  constructor
  · intro h
    simp [Calendar.find_available_slots, h]
  · intro day hday
    have hfa : cal.find_available_slots date_
        = (day.slots.filter fun p => p.2 = none).map Prod.fst := by
      simp [Calendar.find_available_slots, hday]
    rw [hfa]
    have hsub : ((day.slots.filter fun p => p.2 = none).map Prod.fst).Sublist
        (day.slots.map Prod.fst) := (List.filter_sublist _).map Prod.fst
    refine ⟨?_, hsub, ?_⟩
    · intro t
      constructor
      · intro ht
        rcases List.mem_map.1 ht with ⟨p, hp, hpt⟩
        rcases List.mem_filter.1 hp with ⟨hpmem, hpfree⟩
        obtain ⟨a, b⟩ := p
        have hb : b = none := by simpa using hpfree
        have ha : a = t := hpt
        subst hb
        subst ha
        exact hpmem
      · intro ht
        exact List.mem_map.2 ⟨(t, none), List.mem_filter.2 ⟨ht, by simp⟩, rfl⟩
    · intro hp
      exact List.Pairwise.sublist hsub hp

/-- C8 witness: the theorem applied to a date without a Day on the empty
calendar, and to date 5 of calNine for the order part. -/
theorem c8_query_witness :
    calEmpty.find_available_slots 7 = [] ∧
    (calNine.find_available_slots 5).Sublist (dayNine.slots.map Prod.fst) :=
  ⟨(c8_find_available_slots_spec calEmpty 7).1 (by decide),
   ((c8_find_available_slots_spec calNine 5).2 dayNine (by decide)).2.1⟩

/-! ## C4: overlapping second booking -/

/-- C4 (amended): when the requested range of an add_event overlaps any slot
already occupied in the date's Day, the call raises SlotNotAvailable, no id
is returned, and no event is registered in the event index; but, contrary to
the claim, partial booking can remain visible in the slots (shown by the
counterexample, which exhibits a slot mutated by the failed call). -/
theorem c4_overlap_amended (cal : Calendar) (today : Nat) (title description : String)
    (date_ start_at end_at k x : Nat) (day : Day)
    (hday : dictLookup cal.days date_ = some day)
    (hk : dictLookup day.slots k = some (some x))
    (hs : start_at ≤ k) (hke : k < end_at) (htoday : today ≤ date_) :
    (cal.add_event today title description date_ start_at end_at).2.1
        = some CalErr.slotNotAvailable ∧
    (cal.add_event today title description date_ start_at end_at).1.events = cal.events ∧
    (cal.add_event today title description date_ start_at end_at).2.2 = none := by
  have hd : ¬ date_ < today := by omega
  have hdf : cal.dayFor date_ = day := dayFor_of_lookup cal date_ day hday
  have herr : (day.add_event cal.nextId start_at end_at).2
      = some CalErr.slotNotAvailable := by
    have hconf := addEventGo_conflict cal.nextId start_at end_at (day.slots.map Prod.fst)
      day.slots k x (mem_keys_of_dictLookup hk) hs hke hk
    rcases hgo : Day.addEventGo cal.nextId start_at end_at (day.slots.map Prod.fst) day.slots
      with ⟨s1, e1⟩
    rw [hgo] at hconf
    simp only [Day.add_event, hgo]
    exact hconf
  rcases hadd : (cal.dayFor date_).add_event cal.nextId start_at end_at with ⟨day1, err⟩
  have he : err = some CalErr.slotNotAvailable := by
    rw [hdf] at hadd
    rw [hadd] at herr
    exact herr
  subst he
  unfold Calendar.add_event
  rw [if_neg hd, hadd]
  exact ⟨rfl, rfl, rfl⟩

/-- C4 counterexample: the claim states that after the failing overlapping
add_event no partial booking remains visible. On calHalf (event 0 booked
09:00 to 09:30 on date 5), the overlapping add_event("C", "D", 5, 08:45,
09:15) raises SlotNotAvailable, yet slot 08:45 (minute 525), free before the
call, afterwards references id 1 - the id consumed by the failed second
event, absent from the event index - and the free-slot query no longer
returns 525. -/
theorem c4_overlap_counterexample :
    (calHalf.add_event 5 "C" "D" 5 525 555).2.1 = some CalErr.slotNotAvailable ∧
    525 ∈ calHalf.find_available_slots 5 ∧
    525 ∉ calHalfFail.find_available_slots 5 ∧
    dictLookup calHalfFail.days 5 = some dayHalfFail ∧
    dictLookup dayHalfFail.slots 525 = some (some 1) ∧
    dictLookup calHalfFail.events 1 = none := by
  decide

/-- C4 witness: the amended theorem applied to calHalf, whose slot 540 is
occupied by event 0, with the overlapping request 08:45 to 09:15. -/
theorem c4_overlap_witness :
    (calHalf.add_event 5 "E" "F" 5 525 555).2.1 = some CalErr.slotNotAvailable ∧
    (calHalf.add_event 5 "E" "F" 5 525 555).1.events = calHalf.events ∧
    (calHalf.add_event 5 "E" "F" 5 525 555).2.2 = none :=
  c4_overlap_amended calHalf 5 "E" "F" 5 525 555 540 0 dayHalf (by decide) (by decide)
    (by norm_num) (by norm_num) (by norm_num)

/-! ## C3: date-changing update to a past date -/

theorem clear_not_id (slots : List (Nat × Option Nat)) (x : Nat) :
    ∀ p ∈ slots.map fun q => if q.2 = some x then (q.1, none) else q, p.2 ≠ some x := by
  intro p hp
  rcases List.mem_map.1 hp with ⟨q, hq, hqp⟩
  subst hqp
  by_cases h : q.2 = some x <;> simp [h]

/-- C3 (amended): updating an event to a different, past date raises
DateInPast, but - contrary to the claim - the calendar state is not left
unchanged: the date-changing path deletes first and re-validates only in the
re-add, so on return the event is gone from the event index and every slot
of its old Day is cleared of its id. -/
theorem c3_update_past_deletes (cal : Calendar) (today event_id : Nat)
    (title description : String) (date_ start_at end_at : Nat) (ev : Event) (day : Day)
    (hnd : (cal.events.map Prod.fst).Nodup)
    (hev : dictLookup cal.events event_id = some ev)
    (hdne : ev.date_ ≠ date_)
    (hpast : date_ < today)
    (hday : dictLookup cal.days ev.date_ = some day)
    (hslot : ∃ p ∈ day.slots, p.2 = some event_id) :
    (cal.update_event today event_id title description date_ start_at end_at).2
        = some CalErr.dateInPast ∧
    dictLookup
        (cal.update_event today event_id title description date_ start_at end_at).1.events
        event_id = none ∧
    ∃ day1, dictLookup
        (cal.update_event today event_id title description date_ start_at end_at).1.days
        ev.date_ = some day1 ∧
      ∀ p ∈ day1.slots, p.2 ≠ some event_id := by
  have hanyT : (day.slots.any fun p => p.2 = some event_id) = true := by
    rw [List.any_eq_true]
    rcases hslot with ⟨p, hpmem, hp2⟩
    exact ⟨p, hpmem, by simp [hp2]⟩
  have hdel : day.delete_event event_id
      = ({ day with slots := day.slots.map fun p =>
            if p.2 = some event_id then (p.1, none) else p }, none) := by
    simp [Day.delete_event, hanyT]
  have hcdel : cal.delete_event event_id
      = ({ cal with
            events := dictRemove cal.events event_id,
            days := dictSet cal.days ev.date_
              ({ day with slots := day.slots.map fun p =>
                  if p.2 = some event_id then (p.1, none) else p }) }, none) := by
    simp [Calendar.delete_event, hev, hday, hdel]
  have hres : cal.update_event today event_id title description date_ start_at end_at
      = ({ cal with
            events := dictRemove cal.events event_id,
            days := dictSet cal.days ev.date_
              ({ day with slots := day.slots.map fun p =>
                  if p.2 = some event_id then (p.1, none) else p }) },
         some CalErr.dateInPast) := by
    simp [Calendar.update_event, hev, hdne, hcdel, Calendar.add_event, hpast]
  rw [hres]
  refine ⟨rfl, dictLookup_remove_self cal.events event_id hnd,
    ⟨({ day with slots := day.slots.map fun p =>
        if p.2 = some event_id then (p.1, none) else p }),
     dictLookup_set_self _ _ _, clear_not_id day.slots event_id⟩⟩

/-- C3 counterexample: the claim states that updating event 0 (stored on the
future date 10) to the past date 3 raises DateInPast and leaves the calendar
unchanged. With today = 5 the call does raise DateInPast, but event 0, in
the index before the call, is gone afterwards. -/
theorem c3_update_past_counterexample :
    dictLookup calTen.events 0 ≠ none ∧
    (calTen.update_event 5 0 "C" "D" 3 540 600).2 = some CalErr.dateInPast ∧
    dictLookup (calTen.update_event 5 0 "C" "D" 3 540 600).1.events 0 = none := by
  decide

/-- C3 witness: the amended theorem applied to calTen (event 0 on date 10,
today = 5, new date 3). -/
theorem c3_update_past_witness :
    (calTen.update_event 5 0 "C" "D" 3 540 600).2 = some CalErr.dateInPast ∧
    dictLookup (calTen.update_event 5 0 "C" "D" 3 540 600).1.events 0 = none ∧
    ∃ day1, dictLookup (calTen.update_event 5 0 "C" "D" 3 540 600).1.days 10 = some day1 ∧
      ∀ p ∈ day1.slots, p.2 ≠ some 0 := by
  have h := c3_update_past_deletes calTen 5 0 "C" "D" 3 540 600
    ({ title := "A", description := "B", date_ := 10, start_at := 540, end_at := 600,
       id := 0, reminders := [] }) dayTen (by decide) (by decide) (by decide) (by norm_num)
    (by decide) (by decide)
  exact ⟨h.1, h.2.1, h.2.2⟩

/-! ## C5: the delete_event error condition -/

/-- C5 (amended): delete_event raises EventNotFound when the id is absent
from the event index, but not only then: it also raises EventNotFound for an
indexed event whose date has a Day none of whose slots reference the id -
which a successful add_event can produce, since a range containing no slot
boundary books nothing (counterexample). The characterisation below is exact;
in the spurious case the event has nevertheless been popped from the index
before the raise. -/
theorem c5_delete_characterization (cal : Calendar) (event_id : Nat) :
    (cal.delete_event event_id).2 = some CalErr.eventNotFound ↔
      (dictLookup cal.events event_id = none ∨
       ∃ ev day, dictLookup cal.events event_id = some ev ∧
         dictLookup cal.days ev.date_ = some day ∧
         ∀ p ∈ day.slots, p.2 ≠ some event_id) := by
  rcases hev : dictLookup cal.events event_id with _ | ev
  · simp [Calendar.delete_event, hev]
  · rcases hday : dictLookup cal.days ev.date_ with _ | day
    · have hres : (cal.delete_event event_id).2 = none := by
        simp [Calendar.delete_event, hev, hday]
      rw [hres]
      constructor
      · intro h
        exact Option.noConfusion h
      · rintro (h | ⟨ev', day', hev', hday', hall⟩)
        · exact Option.noConfusion h
        · obtain rfl : ev = ev' := Option.some.inj hev'
          rw [hday] at hday'
          exact Option.noConfusion hday'
    · by_cases hany : (day.slots.any fun p => p.2 = some event_id) = true
      · have hres : (cal.delete_event event_id).2 = none := by
          simp [Calendar.delete_event, hev, hday, Day.delete_event, hany]
        rw [hres]
        constructor
        · intro h
          exact Option.noConfusion h
        · rintro (h | ⟨ev', day', hev', hday', hall⟩)
          · exact Option.noConfusion h
          · obtain rfl : ev = ev' := Option.some.inj hev'
            rw [hday] at hday'
            obtain rfl : day = day' := Option.some.inj hday'
            rcases List.any_eq_true.1 hany with ⟨p, hpmem, hp2⟩
            exact (hall p hpmem (by simpa using hp2)).elim
      · have hanyF : (day.slots.any fun p => p.2 = some event_id) = false :=
          Bool.eq_false_iff.2 (fun hh => hany hh)
        have hres : (cal.delete_event event_id).2 = some CalErr.eventNotFound := by
          simp [Calendar.delete_event, hev, hday, Day.delete_event, hanyF]
        rw [hres]
        constructor
        · intro _
          refine Or.inr ⟨ev, day, rfl, hday, ?_⟩
          intro p hpmem hp2
          exact hany (List.any_eq_true.2 ⟨p, hpmem, by simp [hp2]⟩)
        · intro _
          rfl

/-- C5 counterexample: the claim states delete_event never raises
EventNotFound for an id returned by a successful add_event and not yet
deleted. Starting from the empty calendar with today = 5, the successful
add_event("A", "B", 5, 09:05, 09:10) returns id 0 (its range books no slot);
id 0 is in the event index, yet delete_event 0 raises EventNotFound. -/
theorem c5_delete_counterexample :
    (calEmpty.add_event 5 "A" "B" 5 545 550).2.2 = some 0 ∧
    dictLookup calNoSlot.events 0 ≠ none ∧
    (calNoSlot.delete_event 0).2 = some CalErr.eventNotFound := by
  decide

/-- C5 witness: the characterisation applied to calNoSlot and id 0 - the
event is indexed, its Day exists, and no slot references id 0, so the raise
is EventNotFound. -/
theorem c5_delete_witness :
    (calNoSlot.delete_event 0).2 = some CalErr.eventNotFound :=
  (c5_delete_characterization calNoSlot 0).mpr
    (Or.inr ⟨({ title := "A", description := "B", date_ := 5, start_at := 545,
                end_at := 550, id := 0, reminders := [] }), dayNoSlot,
      by decide, by decide, by decide⟩)

/-! ## C9: same-date shrinking update -/

theorem dictLookup_clear : ∀ (slots : List (Nat × Option Nat)) (x k : Nat),
    dictLookup (slots.map fun p => if p.2 = some x then (p.1, none) else p) k
      = (dictLookup slots k).map fun v => if v = some x then none else v
  | [], _, _ => rfl
  | (a, b) :: rest, x, k => by
      by_cases hb : b = some x
      · have hhead : (if (a, b).2 = some x then ((a, b).1, (none : Option Nat)) else (a, b))
            = (a, none) := by
          show (if b = some x then ((a : Nat), (none : Option Nat)) else (a, b)) = (a, none)
          rw [if_pos hb]
        rw [List.map_cons, hhead]
        by_cases hak : a = k
        · show (if a = k then some (none : Option Nat)
              else dictLookup (rest.map fun p => if p.2 = some x then (p.1, none) else p) k)
            = (if a = k then some b else dictLookup rest k).map
                fun v => if v = some x then none else v
          rw [if_pos hak, if_pos hak, Option.map_some', if_pos hb]
        · show (if a = k then some (none : Option Nat)
              else dictLookup (rest.map fun p => if p.2 = some x then (p.1, none) else p) k)
            = (if a = k then some b else dictLookup rest k).map
                fun v => if v = some x then none else v
          rw [if_neg hak, if_neg hak, dictLookup_clear rest x k]
      · have hhead : (if (a, b).2 = some x then ((a, b).1, (none : Option Nat)) else (a, b))
            = (a, b) := by
          show (if b = some x then ((a : Nat), (none : Option Nat)) else (a, b)) = (a, b)
          rw [if_neg hb]
        rw [List.map_cons, hhead]
        by_cases hak : a = k
        · show (if a = k then some b
              else dictLookup (rest.map fun p => if p.2 = some x then (p.1, none) else p) k)
            = (if a = k then some b else dictLookup rest k).map
                fun v => if v = some x then none else v
          rw [if_pos hak, if_pos hak, Option.map_some', if_neg hb]
        · show (if a = k then some b
              else dictLookup (rest.map fun p => if p.2 = some x then (p.1, none) else p) k)
            = (if a = k then some b else dictLookup rest k).map
                fun v => if v = some x then none else v
          rw [if_neg hak, if_neg hak, dictLookup_clear rest x k]

theorem clear_keys (slots : List (Nat × Option Nat)) (x : Nat) :
    (slots.map fun p => if p.2 = some x then (p.1, none) else p).map Prod.fst
      = slots.map Prod.fst := by
  induction slots with
  | nil => rfl
  | cons p rest ih =>
      by_cases hb : p.2 = some x <;> simp [hb, ih]

/-- C9: a same-date update_event that shrinks an event's booked range
[start_at, e1) to [start_at, e2) with e2 < e1 succeeds, and afterwards every
slot of the date's Day lying in [e2, e1) is free: the Day-level update
clears every slot owned by the id before rebooking the smaller range, so no
stale booking survives. The booking hypothesis states that the Day's slots
reference the id exactly on [start_at, e1) and on at least one slot. -/
theorem c9_shrink_frees_tail (cal : Calendar) (today event_id : Nat)
    (title description : String) (date_ start_at e1 e2 : Nat) (ev : Event) (day : Day)
    (hnd : (day.slots.map Prod.fst).Nodup)
    (hev : dictLookup cal.events event_id = some ev)
    (hdate : ev.date_ = date_)
    (hday : dictLookup cal.days date_ = some day)
    (hbook : ∀ p ∈ day.slots, (p.2 = some event_id ↔ start_at ≤ p.1 ∧ p.1 < e1))
    (hne : ∃ p ∈ day.slots, p.2 = some event_id)
    (hs2 : start_at ≤ e2) (h21 : e2 < e1) :
    (cal.update_event today event_id title description date_ start_at e2).2 = none ∧
    ∃ day1,
      dictLookup (cal.update_event today event_id title description date_ start_at e2).1.days
          date_ = some day1 ∧
      ∀ k, e2 ≤ k → k < e1 → k ∈ day.slots.map Prod.fst →
        dictLookup day1.slots k = some none := by
  have hanyT : (day.slots.any fun p => p.2 = some event_id) = true := by
    rw [List.any_eq_true]
    rcases hne with ⟨p, hpmem, hp2⟩
    exact ⟨p, hpmem, by simp [hp2]⟩
  have hdel : day.delete_event event_id
      = ({ day with slots := day.slots.map fun p =>
            if p.2 = some event_id then (p.1, none) else p }, none) := by
    simp [Day.delete_event, hanyT]
  have hkeys : ((day.slots.map fun p =>
        if p.2 = some event_id then (p.1, none) else p).map Prod.fst)
      = day.slots.map Prod.fst := clear_keys day.slots event_id
  have hndC : ((day.slots.map fun p =>
      if p.2 = some event_id then (p.1, none) else p).map Prod.fst).Nodup := by
    rw [hkeys]
    exact hnd
  have hfree : ∀ k ∈ (day.slots.map fun p =>
        if p.2 = some event_id then (p.1, none) else p).map Prod.fst,
      start_at ≤ k → k < e2 →
      dictLookup (day.slots.map fun p =>
        if p.2 = some event_id then (p.1, none) else p) k = some none := by
    intro k hk hs hke
    rw [hkeys] at hk
    rcases dictLookup_of_mem_keys hk with ⟨v, hv⟩
    have hvx : v = some event_id :=
      (hbook (k, v) (mem_of_dictLookup hv)).2 ⟨hs, by omega⟩
    rw [dictLookup_clear day.slots event_id k, hv, hvx]
    simp
  rcases haef : Day.addEventGo event_id start_at e2
      ((day.slots.map fun p =>
        if p.2 = some event_id then (p.1, none) else p).map Prod.fst)
      (day.slots.map fun p => if p.2 = some event_id then (p.1, none) else p)
      with ⟨slots1, err1⟩
  rcases addEventGo_free event_id start_at e2
      ((day.slots.map fun p =>
        if p.2 = some event_id then (p.1, none) else p).map Prod.fst)
      (day.slots.map fun p => if p.2 = some event_id then (p.1, none) else p)
      hndC hfree with ⟨herr, hval⟩
  rw [haef] at herr hval
  have herr1 : err1 = none := herr
  subst herr1
  have haef2 : Day.addEventGo event_id start_at e2
      (List.map (Prod.fst ∘ fun p => if p.2 = some event_id then (p.1, none) else p)
        day.slots)
      (day.slots.map fun p => if p.2 = some event_id then (p.1, none) else p)
      = (slots1, none) := by
    rw [← List.map_map]
    exact haef
  have hupdday : day.update_event event_id start_at e2
      = ({ day with slots := slots1 }, none) := by
    simp [Day.update_event, hdel, Day.add_event, haef2]
  have hres : cal.update_event today event_id title description date_ start_at e2
      = ({ cal with
            events := dictSet cal.events event_id
              ({ ev with title := title, description := description }),
            days := dictSet cal.days date_ ({ day with slots := slots1 }) }, none) := by
    simp [Calendar.update_event, hev, hdate, hday, hupdday]
  rw [hres]
  refine ⟨rfl, ⟨({ day with slots := slots1 }), dictLookup_set_self _ _ _, ?_⟩⟩
  intro k hk2 hk1 hkmem
  have hnin : ¬ (k ∈ (day.slots.map fun p =>
      if p.2 = some event_id then (p.1, none) else p).map Prod.fst ∧
      start_at ≤ k ∧ k < e2) := by
    rintro ⟨_, _, hlt⟩
    omega
  have hv := hval k
  rw [if_neg hnin] at hv
  rcases dictLookup_of_mem_keys hkmem with ⟨v, hvk⟩
  have hvx : v = some event_id :=
    (hbook (k, v) (mem_of_dictLookup hvk)).2 ⟨by omega, hk1⟩
  have hclr : dictLookup (day.slots.map fun p =>
      if p.2 = some event_id then (p.1, none) else p) k = some none := by
    rw [dictLookup_clear day.slots event_id k, hvk, hvx]
    simp
  exact hv.trans hclr

/-- C9 witness: the theorem applied to calNine - event 0 booked 09:00 to
10:00 on date 5 - shrunk to 09:00 to 09:30: afterwards the slots 09:30,
09:45 (and every grid slot in [09:30, 10:00)) are free. -/
theorem c9_shrink_witness :
    (calNine.update_event 5 0 "A" "B" 5 540 570).2 = none ∧
    ∃ day1, dictLookup (calNine.update_event 5 0 "A" "B" 5 540 570).1.days 5 = some day1 ∧
      ∀ k, 570 ≤ k → k < 600 → k ∈ dayNine.slots.map Prod.fst →
        dictLookup day1.slots k = some none :=
  c9_shrink_frees_tail calNine 5 0 "A" "B" 5 540 600 570
    ({ title := "A", description := "B", date_ := 5, start_at := 540, end_at := 600,
       id := 0, reminders := [] }) dayNine (by decide) (by decide) (by decide) (by decide)
    (by decide) (by decide) (by norm_num) (by norm_num)
